import Mathlib

set_option linter.unusedVariables false

/-
Shallow embedding of the timber-js logging facade (src/index.ts).

State that the TypeScript mutates is passed explicitly: a handler tag slot
is an Option String (none when the slot is deleted or was never set), the
registry (Timber.forest) is a list, and a raised error is an Option String
or an Except error value in the result.
-/

/-- Log levels: enum Level with Debug, Info, Warn, Error. -/
inductive Level
  | debug
  | info
  | warn
  | error
deriving DecidableEq

/-- Arguments of one invocation of a handler write hook (the abstract
Tree.log method): level, tag, message and optional parameters. -/
structure WriteCall where
  level : Level
  tag : Option String
  message : Option String
  extras : List String
deriving DecidableEq

/-- Tree.setTag: the body is the assignment this.tag = tag. The first
argument is the current slot value, the result is the slot after the call. -/
def Tree.setTag (tagSlot : Option String) (tag : String) : Option String :=
  some tag

/-- Tree.getTag: the body reads this.tag into a local and returns it; it
does not assign to this.tag, so the slot after the call equals the slot
before it. Result is (returned value, slot after the call). -/
def Tree.getTag (tagSlot : Option String) : Option String × Option String :=
  let tag := tagSlot
  (tag, tagSlot)

/-- Tree.isLoggable: the overridable filter; the default body returns true
unconditionally. -/
def Tree.isLoggable (level : Level) (tag : Option String) : Bool :=
  true

/-- Tree.prepareLog: the pipeline run by the four level methods. It calls
getTag, deletes this.tag (the comment in the source says the tag is just
for one time), evaluates the filter, and returns without a write when the
filter rejects, otherwise calls the write hook once. Result is (slot after
the call, the write hook invocation if any). The filter is a parameter so
a subclass override can be plugged in. -/
def Tree.prepareLog (hl : Level → Option String → Bool)
    (tagSlot : Option String) (level : Level)
    (message : Option String) (extras : List String) :
    Option String × Option WriteCall :=
  let tag := (Tree.getTag tagSlot).1
  -- delete this.tag
  let slotAfter : Option String := none
  if !(hl level tag) then
    (slotAfter, none)
  else
    (slotAfter, some ⟨level, tag, message, extras⟩)

/-- Per handler filter hooks: every planted handler, identified by a Nat,
brings its own isLoggable override (or the inherited default). -/
abbrev Hooks := Nat → Level → Option String → Bool

/-- Per handler tag slots, indexed by handler identity. Identity indexing
models object identity: planting the same instance twice gives two registry
entries sharing one slot. -/
abbrev Tags := Nat → Option String

/-- One write hook invocation recorded during fan-out, together with the
identity of the handler whose hook ran. -/
structure Event where
  hid : Nat
  level : Level
  tag : Option String
  message : Option String
  extras : List String
deriving DecidableEq

/-- A planted handler level method, tree[level](message, extras): the
inherited Tree level method funnels into Tree.prepareLog on that handler
slot, and the handler write hook records an Event. Result is (slots after
the call, recorded events). -/
def treeLevelCall (hooks : Hooks) (tags : Tags) (hid : Nat) (level : Level)
    (message : Option String) (extras : List String) : Tags × List Event :=
  let r := Tree.prepareLog (hooks hid) (tags hid) level message extras
  (fun i => if i = hid then r.1 else tags i,
    match r.2 with
    | none => []
    | some c => [⟨hid, c.level, c.tag, c.message, c.extras⟩])

/-- DispatcherTree.log: the body is
this.forest.forEach((tree) => tree[level](message, ...optionalParams)).
The tag parameter is present in the source signature and unused by the
body. Slots are threaded through the iteration in registry order. -/
def DispatcherTree.log (hooks : Hooks) (tags : Tags) (forest : List Nat)
    (level : Level) (tag : Option String)
    (message : Option String) (extras : List String) : Tags × List Event :=
  match forest with
  | [] => (tags, [])
  | hid :: rest =>
    let r := treeLevelCall hooks tags hid level message extras
    let r2 := DispatcherTree.log hooks r.1 rest level tag message extras
    (r2.1, r.2 ++ r2.2)

/-- The mutable state the facade level calls touch: every handler slot, the
dispatcher own slot (the dispatcher is itself a Tree and has one), and the
registry of planted handler identities. By the plant guard the dispatcher
is never in the registry, so registry entries are plain handler ids. -/
structure SysState where
  tags : Tags
  dispTag : Option String
  forest : List Nat

/-- A level call on the dispatcher instance: the source class DispatcherTree
does not override the level methods, so the inherited Tree level method runs
Tree.prepareLog on the dispatcher own slot with the inherited default filter,
and the write hook reached is DispatcherTree.log. -/
def DispatcherTree.levelCall (hooks : Hooks) (st : SysState) (level : Level)
    (message : Option String) (extras : List String) : SysState × List Event :=
  let r := Tree.prepareLog Tree.isLoggable st.dispTag level message extras
  let st1 : SysState := { st with dispTag := r.1 }
  match r.2 with
  | none => (st1, [])
  | some c =>
    let d := DispatcherTree.log hooks st1.tags st1.forest c.level c.tag c.message c.extras
    ({ st1 with tags := d.1 }, d.2)

/-- Timber.log: the body is Timber.treeOfSouls[method](message, extras),
a level call on the dispatcher instance. -/
def Timber.log (hooks : Hooks) (st : SysState) (method : Level)
    (message : Option String) (extras : List String) : SysState × List Event :=
  DispatcherTree.levelCall hooks st method message extras

/-- Timber.info: Timber.log(Level.Info, message, extras). -/
def Timber.info (hooks : Hooks) (st : SysState)
    (message : Option String) (extras : List String) : SysState × List Event :=
  Timber.log hooks st Level.info message extras

/-- A reference to a Tree instance as stored in the registry: an ordinary
handler identified by a Nat, or the facade internal dispatcher instance
Timber.treeOfSouls. Equality is identity equality, as the source compares
with ===. -/
inductive TreeRef
  | tree (id : Nat)
  | treeOfSouls
deriving DecidableEq

/-- Timber.plant: walks the arguments in order; an undefined or null
argument or the dispatcher itself raises, which aborts the loop but keeps
the entries already pushed; otherwise the argument is pushed. An undefined
or null argument is modelled by none. Result is (final registry, raised
error message if any). -/
def Timber.plant (forest : List TreeRef) :
    List (Option TreeRef) → List TreeRef × Option String
  | [] => (forest, none)
  | a :: rest =>
    match a with
    | none => (forest, some "trees contains undefined or null")
    | some tree =>
      if tree = TreeRef.treeOfSouls then
        (forest, some "Cannot plant Timber into itself.")
      else
        Timber.plant (forest ++ [tree]) rest

/-- Timber.uproot: for each argument in order, indexOf locates the first
occurrence and splice removes it; a missing argument raises, aborting the
loop. List.indexOf returns the list length when the element is absent,
where the source indexOf returns -1. -/
def Timber.uproot (forest : List TreeRef) :
    List TreeRef → List TreeRef × Option String
  | [] => (forest, none)
  | tree :: rest =>
    let index := List.indexOf tree forest
    if index = forest.length then
      (forest, some "Cannot uproot tree which is not planted.")
    else
      Timber.uproot (forest.eraseIdx index) rest

/-- Timber.treeCount: the registry length. -/
def Timber.treeCount (forest : List TreeRef) : Nat :=
  forest.length

/-- Timber.uprootAll: forest.splice(0, treeCount()) leaves the elements
after the first treeCount ones, that is the empty registry. -/
def Timber.uprootAll (forest : List TreeRef) : List TreeRef :=
  forest.drop (Timber.treeCount forest)

/-- The registry mutations reachable through the facade surface. -/
inductive RegOp
  | plant (args : List (Option TreeRef))
  | uproot (args : List TreeRef)
  | uprootAll

/-- The registry after one facade registry call. -/
def Timber.applyOp (forest : List TreeRef) : RegOp → List TreeRef
  | RegOp.plant args => (Timber.plant forest args).1
  | RegOp.uproot args => (Timber.uproot forest args).1
  | RegOp.uprootAll => Timber.uprootAll forest

/-- The registry after a sequence of facade registry calls. The process
starts with the empty registry (private static forest = []). -/
def Timber.runOps (forest : List TreeRef) (ops : List RegOp) : List TreeRef :=
  ops.foldl Timber.applyOp forest

/-- The console methods DebugTree.log writes to. -/
inductive ConsoleMethod
  | debug
  | info
  | warn
  | error
deriving DecidableEq

/-- The switch in DebugTree.log selecting the console method from the
level; the Debug and default branches both pick the debug method. -/
def DebugTree.method : Level → ConsoleMethod
  | Level.info => ConsoleMethod.info
  | Level.warn => ConsoleMethod.warn
  | Level.error => ConsoleMethod.error
  | Level.debug => ConsoleMethod.debug

/-- DebugTree.log: if (tag) is a JS truthiness test, false for an undefined
tag and for the empty string; the truthy branch prepends the bracketed tag
to the console arguments, the falsy branch passes message and extras alone.
Result is the console method and its argument list. -/
def DebugTree.log (level : Level) (tag : Option String)
    (message : Option String) (extras : List String) :
    ConsoleMethod × List (Option String) :=
  let method := DebugTree.method level
  match tag with
  | some t =>
    if t = "" then
      (method, message :: extras.map some)
    else
      (method, some ("[" ++ t ++ "]") :: message :: extras.map some)
  | none => (method, message :: extras.map some)

/-- Modelled from the spec: the Dispatching Handler level methods bypass
prepareLog and filtering entirely and go straight to dispatch, iterating
the registry and invoking the matching level method on each planted
handler, leaving the dispatcher own slot untouched. -/
def DispatcherTree.levelCallSpec (hooks : Hooks) (st : SysState) (level : Level)
    (message : Option String) (extras : List String) : SysState × List Event :=
  let d := DispatcherTree.log hooks st.tags st.forest level none message extras
  ({ st with tags := d.1 }, d.2)

/-- DispatcherTree.log with an explicit error channel: the source body
contains no throw statement and every callee is total, so the call always
returns normally with the dispatch result. -/
def DispatcherTree.logE (hooks : Hooks) (tags : Tags) (forest : List Nat)
    (level : Level) (tag : Option String)
    (message : Option String) (extras : List String) :
    Except String (Tags × List Event) :=
  Except.ok (DispatcherTree.log hooks tags forest level tag message extras)

/-- C2: for any prior slot value, calling setTag T and then a level method
delivers T as the tag to the write hook, and an immediately following level
call with no intervening setTag delivers an absent tag; stated for the base
class pipeline with the inherited default filter, under which the write
hook always runs. -/
theorem C2_tag_is_one_time (tagSlot : Option String) (T : String)
    (l1 l2 : Level) (m1 m2 : Option String) (e1 e2 : List String) :
    (Tree.prepareLog Tree.isLoggable (Tree.setTag tagSlot T) l1 m1 e1).2 =
        some ⟨l1, some T, m1, e1⟩ ∧
      (Tree.prepareLog Tree.isLoggable
          (Tree.prepareLog Tree.isLoggable (Tree.setTag tagSlot T) l1 m1 e1).1
          l2 m2 e2).2 =
        some ⟨l2, none, m2, e2⟩ := by
  constructor <;>
    simp [Tree.prepareLog, Tree.setTag, Tree.getTag, Tree.isLoggable]

/-- C3: one level call of the pipeline clears the slot and then invokes the
write hook exactly once with the level, the tag value retrieved before the
filter ran, the message and the extras when the filter accepts, and not at
all when the filter rejects, with no further effect. -/
theorem C3_filter_gates_write_hook (hl : Level → Option String → Bool)
    (tagSlot : Option String) (level : Level)
    (message : Option String) (extras : List String) :
    Tree.prepareLog hl tagSlot level message extras =
      (none,
        if hl level (Tree.getTag tagSlot).1 then
          some ⟨level, (Tree.getTag tagSlot).1, message, extras⟩
        else none) := by
  by_cases h : hl level (Tree.getTag tagSlot).1 <;>
    simp [Tree.prepareLog, h]

/-- C4 as stated is false: a getTag call on a slot holding the tag returns
the tag but does not clear the slot; the slot after the call still holds
the same tag rather than being empty. -/
theorem C4_counterexample_getTag_does_not_clear :
    Tree.getTag (some "t") ≠ (some "t", none) := by
  simp [Tree.getTag]

/-- C4 amended: getTag returns the current tag and leaves the slot
unchanged; the one time semantics comes from prepareLog, which deletes the
slot by a separate statement right after its getTag call, so the slot is
empty after any level call. -/
theorem C4_amended_prepareLog_clears (T : String)
    (hl : Level → Option String → Bool) (level : Level)
    (message : Option String) (extras : List String) :
    Tree.getTag (some T) = (some T, some T) ∧
      (Tree.prepareLog hl (some T) level message extras).1 = none := by
  refine ⟨rfl, ?_⟩
  by_cases h : hl level (Tree.getTag (some T)).1 <;>
    simp [Tree.prepareLog, h]

/-- C9: uprooting a handler that is not in the registry raises the not
planted error and leaves the registry unchanged, same length and same
contents in the same order. -/
theorem C9_uproot_missing_fails (forest : List TreeRef) (h : TreeRef)
    (habs : h ∉ forest) :
    Timber.uproot forest [h] =
      (forest, some "Cannot uproot tree which is not planted.") := by
  have hidx : List.indexOf h forest = forest.length :=
    List.indexOf_eq_length.2 habs
  simp [Timber.uproot, hidx]

/-- C9 witness: uprooting a handler from the empty registry. -/
theorem C9_uproot_missing_fails_witness :
    Timber.uproot [] [TreeRef.tree 0] =
      ([], some "Cannot uproot tree which is not planted.") :=
  C9_uproot_missing_fails [] (TreeRef.tree 0) (by simp)

/-- C10: the DebugTree write hook treats an empty string tag as absent: the
emitted console call carries no bracketed tag marker and is identical to
the call emitted with no tag at all, for every level and message. -/
theorem C10_empty_tag_like_absent (level : Level)
    (message : Option String) (extras : List String) :
    DebugTree.log level (some "") message extras =
      DebugTree.log level none message extras := by
  simp [DebugTree.log]

/-- Helper: during dispatch over the registry, a handler whose slot is
empty and whose filter always accepts contributes exactly one event per
occurrence of its identity, each with an absent tag, and its slot is empty
again afterwards. -/
theorem DispatcherTree.log_filter_count (hooks : Hooks) (hid : Nat)
    (level : Level) (tg m : Option String) (ex : List String)
    (hpass : ∀ l t, hooks hid l t = true) :
    ∀ (forest : List Nat) (tags : Tags), tags hid = none →
      ((DispatcherTree.log hooks tags forest level tg m ex).2.filter
          (fun e => e.hid == hid) =
        List.replicate (forest.count hid) ⟨hid, level, none, m, ex⟩) ∧
      (DispatcherTree.log hooks tags forest level tg m ex).1 hid = none := by
  intro forest
  induction forest with
  | nil =>
    intro tags htags
    simpa [DispatcherTree.log] using htags
  | cons hd rest ih =>
    intro tags htags
    by_cases hh : hd = hid
    · subst hh
      have hr : Tree.prepareLog (hooks hd) (tags hd) level m ex =
          (none, some ⟨level, none, m, ex⟩) := by
        simp [Tree.prepareLog, Tree.getTag, htags, hpass]
      have hrec := ih (fun i => if i = hd then none else tags i) (by simp)
      refine ⟨?_, ?_⟩
      · simp [DispatcherTree.log, treeLevelCall, hr, List.filter_append,
          hrec.1, List.count_cons, List.replicate_succ]
      · simpa [DispatcherTree.log, treeLevelCall, hr] using hrec.2
    · have hupd :
          (fun i =>
            if i = hd then (Tree.prepareLog (hooks hd) (tags hd) level m ex).1
            else tags i) hid = none := by
        simp [if_neg (Ne.symm hh), htags]
      have hrec := ih
        (fun i =>
          if i = hd then (Tree.prepareLog (hooks hd) (tags hd) level m ex).1
          else tags i) hupd
      refine ⟨?_, ?_⟩
      · rcases hcall : (Tree.prepareLog (hooks hd) (tags hd) level m ex).2 with _ | c
        · simp [DispatcherTree.log, treeLevelCall, hcall, List.filter_append,
            hrec.1, List.count_cons, hh]
        · simp [DispatcherTree.log, treeLevelCall, hcall, List.filter_append,
            hrec.1, List.count_cons, hh]
      · simpa [DispatcherTree.log, treeLevelCall] using hrec.2

/-- C1: a single facade level call invokes the write hook of a handler that
occurs n times in the registry exactly n times, once per occurrence, each
time with the same arguments: the level, an absent tag when no tag was set
on that handler, and the message with its extras; stated for a handler
keeping the inherited always true filter. -/
theorem C1_fanout_once_per_occurrence (hooks : Hooks) (st : SysState)
    (hid : Nat) (level : Level) (m : Option String) (ex : List String)
    (hpass : ∀ l t, hooks hid l t = true) (htag : st.tags hid = none) :
    (Timber.log hooks st level m ex).2.filter (fun e => e.hid == hid) =
      List.replicate (st.forest.count hid) ⟨hid, level, none, m, ex⟩ := by
  have key := DispatcherTree.log_filter_count hooks hid level
    (Tree.getTag st.dispTag).1 m ex hpass st.forest st.tags htag
  simpa [Timber.log, DispatcherTree.levelCall, Tree.prepareLog,
    Tree.isLoggable] using key.1

/-- C1 witness: the same handler planted twice, then Timber.info with
message m: its write hook runs exactly twice, each time with the info
level, an absent tag and the message. -/
theorem C1_fanout_once_per_occurrence_witness :
    (Timber.info (fun _ => Tree.isLoggable)
          ⟨fun _ => none, none, [7, 7]⟩ (some "m") []).2.filter
        (fun e => e.hid == 7) =
      List.replicate 2 ⟨7, Level.info, none, some "m", []⟩ :=
  C1_fanout_once_per_occurrence (fun _ => Tree.isLoggable)
    ⟨fun _ => none, none, [7, 7]⟩ 7 Level.info (some "m") []
    (fun l t => rfl) rfl

/-- Helper: the tag parameter of DispatcherTree.log is unused by the body,
so the dispatch result does not depend on it. -/
theorem DispatcherTree.log_tag_unused (hooks : Hooks) (forest : List Nat)
    (level : Level) (t1 t2 : Option String)
    (m : Option String) (ex : List String) :
    ∀ tags : Tags,
      DispatcherTree.log hooks tags forest level t1 m ex =
        DispatcherTree.log hooks tags forest level t2 m ex := by
  induction forest with
  | nil => intro tags; rfl
  | cons hd rest ih =>
    intro tags
    simp [DispatcherTree.log, ih]

/-- C5 as stated is false: a level call on the dispatcher is not the pure
bypass dispatch the spec describes; with the dispatcher own slot holding a
tag, the inherited prepareLog pipeline clears that slot, while the bypass
version leaves it untouched. -/
theorem C5_counterexample_pipeline_runs :
    DispatcherTree.levelCall (fun _ => Tree.isLoggable)
        ⟨fun _ => none, some "x", []⟩ Level.info (some "m") [] ≠
      DispatcherTree.levelCallSpec (fun _ => Tree.isLoggable)
        ⟨fun _ => none, some "x", []⟩ Level.info (some "m") [] := by
  intro h
  have h2 := congrArg (fun p => p.1.dispTag) h
  simp [DispatcherTree.levelCall, DispatcherTree.levelCallSpec,
    DispatcherTree.log, Tree.prepareLog, Tree.getTag, Tree.isLoggable] at h2

/-- C5 amended: a dispatcher level call runs the inherited prepareLog,
reading and clearing the dispatcher own tag slot and consulting the
inherited always true filter, before its write hook dispatches; since that
filter always accepts, the fan-out events and the planted handler slot
updates are exactly those of the direct bypass dispatch, and the only
further effect is that the dispatcher own slot is cleared. -/
theorem C5_amended_pipeline_then_dispatch (hooks : Hooks) (st : SysState)
    (level : Level) (m : Option String) (ex : List String) :
    DispatcherTree.levelCall hooks st level m ex =
      ({ (DispatcherTree.levelCallSpec hooks st level m ex).1 with
          dispTag := none },
        (DispatcherTree.levelCallSpec hooks st level m ex).2) := by
  simp only [DispatcherTree.levelCall, DispatcherTree.levelCallSpec,
    Tree.prepareLog, Tree.getTag, Tree.isLoggable, Bool.not_true,
    Bool.false_eq_true, if_false]
  rw [DispatcherTree.log_tag_unused hooks st.forest level st.dispTag none m ex]

/-- C6 as stated is false: invoking the dispatcher write hook directly does
not raise a missing override error; it returns normally with the dispatch
result. -/
theorem C6_counterexample_log_returns_normally :
    DispatcherTree.logE (fun _ => Tree.isLoggable) (fun _ => none) []
        Level.info none (some "m") [] ≠
      Except.error "Missing override for log method." := by
  intro h
  exact Except.noConfusion h

/-- C6 amended: the dispatcher write hook never fails; invoked directly
with the arguments the inherited pipeline would pass, it returns normally
with exactly the handler slot updates and fan-out events that the level
method path produces, and every dispatcher level call does reach it, since
the inherited filter always accepts. -/
theorem C6_amended_write_hook_is_dispatch (hooks : Hooks) (st : SysState)
    (level : Level) (m : Option String) (ex : List String) :
    DispatcherTree.logE hooks st.tags st.forest level
        (Tree.getTag st.dispTag).1 m ex =
      Except.ok ((DispatcherTree.levelCall hooks st level m ex).1.tags,
        (DispatcherTree.levelCall hooks st level m ex).2) := by
  simp [DispatcherTree.logE, DispatcherTree.levelCall, Tree.prepareLog,
    Tree.isLoggable]

/-- C7 as stated is false: a plant call with a valid first argument and a
null second raises the null error, yet the registry after the failed call
has grown by one entry, so its size differs from the size before the call. -/
theorem C7_counterexample_partial_mutation :
    (Timber.plant [] [some (TreeRef.tree 0), none]).2 =
        some "trees contains undefined or null" ∧
      (Timber.plant [] [some (TreeRef.tree 0), none]).1.length ≠
        ([] : List TreeRef).length := by
  refine ⟨rfl, ?_⟩
  decide

/-- C7 amended: a plant call containing an undefined or null argument,
preceded only by ordinary handler arguments, raises the null error, and
the registry after the failed call equals the registry before the call
plus exactly those preceding arguments, already pushed; in particular a
call whose first argument is undefined or null leaves the registry
unchanged. -/
theorem C7_amended_plant_null_keeps_earlier (forest : List TreeRef)
    (pre post : List (Option TreeRef))
    (hpre : ∀ a ∈ pre, ∃ t, a = some t ∧ t ≠ TreeRef.treeOfSouls) :
    Timber.plant forest (pre ++ none :: post) =
      (forest ++ pre.filterMap id, some "trees contains undefined or null") := by
  induction pre generalizing forest with
  | nil => simp [Timber.plant]
  | cons a pre ih =>
    obtain ⟨t, rfl, hne⟩ := hpre a (by simp)
    have hrest : ∀ b ∈ pre, ∃ u, b = some u ∧ u ≠ TreeRef.treeOfSouls :=
      fun b hb => hpre b (by simp [hb])
    simp only [List.cons_append, Timber.plant, if_neg hne,
      List.filterMap_cons_some, id, List.append_eq]
    rw [ih (forest ++ [t]) hrest, List.append_assoc]
    rfl

/-- C7 witness: plant with one ordinary handler then null, from the empty
registry: the null error is raised and the handler stays planted. -/
theorem C7_amended_plant_null_keeps_earlier_witness :
    (∀ a ∈ [some (TreeRef.tree 0)],
        ∃ t, a = some t ∧ t ≠ TreeRef.treeOfSouls) ∧
      Timber.plant [] [some (TreeRef.tree 0), none] =
        ([TreeRef.tree 0], some "trees contains undefined or null") :=
  ⟨fun a ha => ⟨TreeRef.tree 0, by simpa using ha, by decide⟩,
    C7_amended_plant_null_keeps_earlier [] [some (TreeRef.tree 0)] []
      (fun a ha => ⟨TreeRef.tree 0, by simpa using ha, by decide⟩)⟩

/-- Helper: plant never pushes the dispatcher: whatever the arguments, if
the dispatcher is not in the registry before the call it is not in the
registry after it, failed or not. -/
theorem Timber.plant_preserves_no_souls (args : List (Option TreeRef)) :
    ∀ forest : List TreeRef, TreeRef.treeOfSouls ∉ forest →
      TreeRef.treeOfSouls ∉ (Timber.plant forest args).1 := by
  induction args with
  | nil =>
    intro f h
    simpa [Timber.plant] using h
  | cons a rest ih =>
    intro f h
    match a with
    | none => simpa [Timber.plant] using h
    | some t =>
      by_cases ht : t = TreeRef.treeOfSouls
      · simpa [Timber.plant, ht] using h
      · simp only [Timber.plant, if_neg ht]
        exact ih (f ++ [t]) (by simp [h, ht, Ne.symm ht])

/-- Helper: a plant call one of whose arguments is the dispatcher raises:
either an earlier argument already raised, or the dispatcher argument is
reached and the self plant guard raises. -/
theorem Timber.plant_souls_arg_fails (args : List (Option TreeRef)) :
    ∀ forest : List TreeRef, some TreeRef.treeOfSouls ∈ args →
      ((Timber.plant forest args).2).isSome = true := by
  induction args with
  | nil =>
    intro f h
    simp at h
  | cons a rest ih =>
    intro f h
    match a with
    | none => simp [Timber.plant]
    | some t =>
      by_cases ht : t = TreeRef.treeOfSouls
      · simp [Timber.plant, ht]
      · have hmem : some TreeRef.treeOfSouls ∈ rest := by
          rcases List.mem_cons.1 h with h1 | h1
          · exact absurd (Option.some.inj h1.symm) ht
          · exact h1
        simp only [Timber.plant, if_neg ht]
        exact ih (f ++ [t]) hmem

/-- Helper: uproot only removes entries, so it cannot introduce the
dispatcher into the registry. -/
theorem Timber.uproot_preserves_no_souls (args : List TreeRef) :
    ∀ forest : List TreeRef, TreeRef.treeOfSouls ∉ forest →
      TreeRef.treeOfSouls ∉ (Timber.uproot forest args).1 := by
  induction args with
  | nil =>
    intro f h
    simpa [Timber.uproot] using h
  | cons t rest ih =>
    intro f h
    simp only [Timber.uproot]
    split
    · simpa using h
    · refine ih _ fun hm => h ?_
      have hsub : f.eraseIdx (List.indexOf t f) ⊆ f := by
        rw [List.eraseIdx_indexOf_eq_erase t f]
        exact (List.erase_sublist t f).subset
      exact hsub hm

/-- Helper: starting from a registry free of the dispatcher, any sequence
of facade registry calls leaves it free of the dispatcher. -/
theorem Timber.runOps_preserves_no_souls (ops : List RegOp) :
    ∀ forest : List TreeRef, TreeRef.treeOfSouls ∉ forest →
      TreeRef.treeOfSouls ∉ Timber.runOps forest ops := by
  induction ops with
  | nil =>
    intro f h
    simpa [Timber.runOps] using h
  | cons op rest ih =>
    intro f h
    refine ih (Timber.applyOp f op) ?_
    match op with
    | RegOp.plant args => exact Timber.plant_preserves_no_souls args f h
    | RegOp.uproot args => exact Timber.uproot_preserves_no_souls args f h
    | RegOp.uprootAll =>
      intro hm
      exact h (List.drop_subset _ f hm)

/-- C8: a plant call whose arguments include the facade internal dispatcher
always fails, and in every registry state reachable from the initial empty
registry through facade calls the dispatcher is not a member of the list it
dispatches to. -/
theorem C8_souls_never_planted (forest : List TreeRef)
    (args : List (Option TreeRef)) (ops : List RegOp)
    (hmem : some TreeRef.treeOfSouls ∈ args) :
    ((Timber.plant forest args).2).isSome = true ∧
      TreeRef.treeOfSouls ∉ Timber.runOps [] ops :=
  ⟨Timber.plant_souls_arg_fails args forest hmem,
    Timber.runOps_preserves_no_souls ops [] (by simp)⟩

/-- C8 witness: planting the dispatcher into the empty registry fails, and
after that very call the registry still does not contain the dispatcher. -/
theorem C8_souls_never_planted_witness :
    ((Timber.plant [] [some TreeRef.treeOfSouls]).2).isSome = true ∧
      TreeRef.treeOfSouls ∉
        Timber.runOps [] [RegOp.plant [some TreeRef.treeOfSouls]] :=
  C8_souls_never_planted [] [some TreeRef.treeOfSouls]
    [RegOp.plant [some TreeRef.treeOfSouls]] (by decide)
